import Mathlib

/-! Verification development for the Docxpro templating library.

The JavaScript sources are embedded shallowly: each JS function of interest is
translated into a total, executable Lean definition over an explicit model
`JsValue` of the JavaScript values the library manipulates.  Exceptions are
modelled with `Except`, mutation by explicit state passing, and JS numbers by
integers (every numeric literal appearing in the analysed scenarios is an exact
integer, so no floating-point behaviour is involved).  Prototype-chain
properties (such as `toString`) are not modelled; none of the analysed inputs
touches them.
-/

set_option maxRecDepth 10000

namespace Docxpro

mutual

/-- Model of the JavaScript values flowing through the library: `null`,
`undefined`, booleans, (integer-valued) numbers, the special `NaN` number,
strings, arrays, and plain objects (ordered key/value lists).  Arrays and
field lists are spelled as their own inductives (rather than `List`) so
that recursive functions over values are plain mutual structural
recursions, which the kernel evaluates definitionally. -/
inductive JsValue where
  | null : JsValue
  | undef : JsValue
  | bool : Bool → JsValue
  | num : Int → JsValue
  | nan : JsValue
  | str : String → JsValue
  | arr : JsArr → JsValue
  | obj : JsObj → JsValue

/-- The element list of a JS array. -/
inductive JsArr where
  | nil : JsArr
  | cons : JsValue → JsArr → JsArr

/-- The ordered field list of a JS object. -/
inductive JsObj where
  | nil : JsObj
  | cons : String → JsValue → JsObj → JsObj

end

namespace JsArr

/-- Number of elements. -/
def length : JsArr → Nat
  | .nil => 0
  | .cons _ tl => tl.length + 1

/-- Element at an index. -/
def get? : JsArr → Nat → Option JsValue
  | .nil, _ => none
  | .cons hd _, 0 => some hd
  | .cons _ tl, n + 1 => tl.get? n

/-- Element at an index, with a fallback. -/
def getD (a : JsArr) (i : Nat) (dflt : JsValue) : JsValue :=
  (a.get? i).getD dflt

/-- Build from a `List`. -/
def ofList : List JsValue → JsArr
  | [] => .nil
  | x :: rest => .cons x (ofList rest)

end JsArr

namespace JsObj

/-- Whether a key occurs among the fields. -/
def hasKey : JsObj → String → Bool
  | .nil, _ => false
  | .cons k _ tl, key => k == key || tl.hasKey key

/-- First value stored under a key. -/
def get? : JsObj → String → Option JsValue
  | .nil, _ => none
  | .cons k v tl, key => if k == key then some v else tl.get? key

/-- Build from a `List` of pairs. -/
def ofList : List (String × JsValue) → JsObj
  | [] => .nil
  | (k, v) :: rest => .cons k v (ofList rest)

end JsObj

/-- Array value from a `List` (notation helper for concrete inputs). -/
def jsArrOf (xs : List JsValue) : JsValue :=
  .arr (JsArr.ofList xs)

/-- Object value from a `List` of fields (notation helper for concrete
inputs). -/
def jsObjOf (fs : List (String × JsValue)) : JsValue :=
  .obj (JsObj.ofList fs)

/-- The apostrophe character (U+0027), used by `_parseValue`'s quote check. -/
def squote : Char := Char.ofNat 39

/-- The opening-brace character (U+007B). -/
def lbrace : Char := Char.ofNat 123

/-- The closing-brace character (U+007D). -/
def rbrace : Char := Char.ofNat 125

mutual

/-- Structural (deep) equality test on `JsValue`. -/
def jsEqB : JsValue → JsValue → Bool
  | .null, .null => true
  | .undef, .undef => true
  | .bool x, .bool y => x == y
  | .num x, .num y => x == y
  | .nan, .nan => true
  | .str x, .str y => x == y
  | .arr xs, .arr ys => jsEqArrB xs ys
  | .obj fs, .obj gs => jsEqObjB fs gs
  | _, _ => false

/-- Elementwise equality of arrays. -/
def jsEqArrB : JsArr → JsArr → Bool
  | .nil, .nil => true
  | .cons a as_, .cons b bs => jsEqB a b && jsEqArrB as_ bs
  | _, _ => false

/-- Elementwise equality of field lists (order-sensitive). -/
def jsEqObjB : JsObj → JsObj → Bool
  | .nil, .nil => true
  | .cons k a as_, .cons l b bs => k == l && jsEqB a b && jsEqObjB as_ bs
  | _, _ => false

end

/-- JS truthiness: everything is truthy except `null`, `undefined`, `false`,
`0`, `NaN` and the empty string. -/
def jsTruthy : JsValue → Bool
  | .null => false
  | .undef => false
  | .bool b => b
  | .num n => n != 0
  | .nan => false
  | .str s => s ≠ ""
  | .arr _ => true
  | .obj _ => true

/-- Whether `typeof v === "object"` holds in JS (arrays, plain objects and
`null` all answer "object"). -/
def jsTypeofObject : JsValue → Bool
  | .null => true
  | .arr _ => true
  | .obj _ => true
  | _ => false

/-- Composite (reference-typed) values: arrays and plain objects. -/
def isComposite : JsValue → Bool
  | .arr _ => true
  | .obj _ => true
  | _ => false

/-- Whether `typeof v === "string"` holds. -/
def isStr : JsValue → Bool
  | .str _ => true
  | _ => false

/-- Drop leading and trailing whitespace from a character list. -/
def trimChars (cs : List Char) : List Char :=
  ((cs.dropWhile Char.isWhitespace).reverse.dropWhile Char.isWhitespace).reverse

/-- `String.prototype.trim`. -/
def jsTrim (s : String) : String :=
  String.mk (trimChars s.data)

/-- `String.prototype.startsWith`. -/
def jsStartsWith (s pat : String) : Bool :=
  pat.data.isPrefixOf s.data

/-- `String.prototype.endsWith`. -/
def jsEndsWith (s pat : String) : Bool :=
  pat.data.isSuffixOf s.data

/-- The splitting loop of `String.prototype.split` for a non-empty
separator, fuelled by the input length (each step consumes at least one
character, so the fuel is never exhausted). -/
def jsSplitAux (sep : List Char) : Nat → List Char → List Char → List String
  | 0, rest, acc => [String.mk (acc ++ rest)]
  | _ + 1, [], acc => [String.mk acc]
  | fuel + 1, c :: rest, acc =>
    if sep.isPrefixOf (c :: rest) then
      String.mk acc :: jsSplitAux sep fuel ((c :: rest).drop sep.length) []
    else jsSplitAux sep fuel rest (acc ++ [c])

/-- `String.prototype.split` with a non-empty separator string. -/
def jsSplit (sep : String) (s : String) : List String :=
  jsSplitAux sep.data (s.data.length + 1) s.data []

/-- Lexicographic comparison of character lists by code point (JS compares
UTF-16 code units; the two orders agree on all characters the analysed
programs handle). -/
def charListLt : List Char → List Char → Bool
  | [], [] => false
  | [], _ :: _ => true
  | _ :: _, [] => false
  | a :: as_, b :: bs =>
    a.toNat < b.toNat || (a == b && charListLt as_ bs)

/-- The `<` operator on two strings. -/
def jsStrLt (a b : String) : Bool :=
  charListLt a.data b.data

/-- Digits-to-number conversion for a canonical index string. -/
def digitsToNat (cs : List Char) : Nat :=
  cs.foldl (fun acc c => acc * 10 + (c.toNat - '0'.toNat)) 0

/-- Canonical array-index strings: "0", "1", "2", ... with no leading zeros;
these are exactly the own property keys a JS array has for its elements. -/
def isCanonIndex (s : String) : Bool :=
  match s.data with
  | [] => false
  | c :: rest => (c :: rest).all Char.isDigit && (rest.isEmpty || c ≠ '0')

/-- ToNumber on strings, restricted to integer numerals: surrounding
whitespace is trimmed, the empty string converts to 0, an optional sign
followed by digits converts to the denoted integer, and everything else (in
particular any non-integer numeral, which the analysed inputs never contain)
is NaN, reported as `none`. -/
def jsStrToNumber (s : String) : Option Int :=
  let t := jsTrim s
  if t = "" then some 0
  else
    let (neg, digits) :=
      match t.data with
      | '-' :: rest => (true, rest)
      | '+' :: rest => (false, rest)
      | l => (false, l)
    if digits ≠ [] && digits.all Char.isDigit then
      let n : Nat := digits.foldl (fun acc c => acc * 10 + (c.toNat - '0'.toNat)) 0
      some (if neg then -(n : Int) else (n : Int))
    else none

mutual

/-- String(v): the string JS produces when coercing `v`, e.g. by `+=`.
Arrays stringify as their elements joined with commas (with `null` and
`undefined` elements turning into empty strings — Array.prototype.join
semantics), objects as "[object Object]". -/
def jsToString : JsValue → String
  | .null => "null"
  | .undef => "undefined"
  | .bool b => if b then "true" else "false"
  | .num n => toString n
  | .nan => "NaN"
  | .str s => s
  | .arr xs => joinElems xs
  | .obj _ => "[object Object]"

/-- Array elements joined with commas; a `null`/`undefined` element
contributes the empty string. -/
def joinElems : JsArr → String
  | .nil => ""
  | .cons x .nil =>
    (match x with
     | .null => ""
     | .undef => ""
     | y => jsToString y)
  | .cons x (.cons y rest) =>
    (match x with
     | .null => ""
     | .undef => ""
     | z => jsToString z) ++ "," ++ joinElems (.cons y rest)

end

/-- ToPrimitive on a composite value under the default hint: the value's
string form. -/
def jsToPrimitive (v : JsValue) : JsValue :=
  if isComposite v then .str (jsToString v) else v

/-- ToNumber on an already-primitive value; `none` is NaN. -/
def jsPrimToNumber : JsValue → Option Int
  | .null => some 0
  | .undef => none
  | .bool b => some (if b then 1 else 0)
  | .num n => some n
  | .nan => none
  | .str s => jsStrToNumber s
  | _ => none

/-- Loose equality of primitive values (both sides already non-composite),
following the ECMAScript abstract-equality steps: booleans convert to
numbers, `null == undefined`, numbers against strings via ToNumber, and any
comparison involving NaN is false. -/
def jsPrimLooseEq (a b : JsValue) : Bool :=
  let a : JsValue := match a with | .bool x => .num (if x then 1 else 0) | v => v
  let b : JsValue := match b with | .bool x => .num (if x then 1 else 0) | v => v
  match a, b with
  | .null, .null => true
  | .undef, .undef => true
  | .null, .undef => true
  | .undef, .null => true
  | .num m, .num n => m == n
  | .str s, .str t => s == t
  | .num m, .str t => match jsStrToNumber t with | some n => m == n | none => false
  | .str s, .num n => match jsStrToNumber s with | some m => m == n | none => false
  | _, _ => false

/-- Loose equality (`==`).  Two composites are compared structurally here:
JS compares references, and in the analysed programs both operands of a
composite comparison can only arise from resolving the same context path, in
which case they alias and structural equality gives the same verdict.  A
composite against a primitive goes through ToPrimitive, as in JS. -/
def jsLooseEq (a b : JsValue) : Bool :=
  if isComposite a && isComposite b then jsEqB a b
  else jsPrimLooseEq (jsToPrimitive a) (jsToPrimitive b)

/-- The abstract relational comparison a < b: `none` when a NaN is involved
(in which case every relational operator yields false), otherwise the
boolean verdict.  Two strings compare lexicographically; anything else
compares numerically after ToPrimitive/ToNumber. -/
def jsLessO (a b : JsValue) : Option Bool :=
  match jsToPrimitive a, jsToPrimitive b with
  | .str s, .str t => some (jsStrLt s t)
  | pa, pb =>
    match jsPrimToNumber pa, jsPrimToNumber pb with
    | some m, some n => some (decide (m < n))
    | _, _ => none

/-- The `<` operator. -/
def jsLt (a b : JsValue) : Bool := (jsLessO a b).getD false

/-- The `>` operator. -/
def jsGt (a b : JsValue) : Bool := (jsLessO b a).getD false

/-- The `<=` operator (false when NaN is involved). -/
def jsLe (a b : JsValue) : Bool :=
  match jsLessO b a with
  | some r => !r
  | none => false

/-- The `>=` operator (false when NaN is involved). -/
def jsGe (a b : JsValue) : Bool :=
  match jsLessO a b with
  | some r => !r
  | none => false

/-- Escape a string for inclusion in JSON output (quote and backslash;
control-character escapes are not needed by any analysed input). -/
def jsonEscape (s : String) : String :=
  s.data.foldl
    (fun acc c =>
      if c = '"' then acc ++ "\\\""
      else if c = '\\' then acc ++ "\\\\"
      else acc.push c) ""

mutual

/-- JSON.stringify.  `none` models the `undefined` result JS returns for a
top-level `undefined`; inside arrays `undefined` serialises as "null" and as
an object member it is omitted. -/
def jsonStringify : JsValue → Option String
  | .undef => none
  | .null => some "null"
  | .bool b => some (if b then "true" else "false")
  | .num n => some (toString n)
  | .nan => some "null"
  | .str s => some ("\"" ++ jsonEscape s ++ "\"")
  | .arr xs => some ("[" ++ jsonArrElems xs ++ "]")
  | .obj fs => some ("\x7b" ++ jsonObjFields fs ++ "\x7d")

/-- Array members of a JSON serialisation, comma separated. -/
def jsonArrElems : JsArr → String
  | .nil => ""
  | .cons x .nil => (jsonStringify x).getD "null"
  | .cons x (.cons y rest) =>
    (jsonStringify x).getD "null" ++ "," ++ jsonArrElems (.cons y rest)

/-- Object members of a JSON serialisation; members whose value serialises
to `undefined` are dropped. -/
def jsonObjFields : JsObj → String
  | .nil => ""
  | .cons k v rest =>
    match jsonStringify v with
    | none => jsonObjFields rest
    | some sv =>
      let piece := "\"" ++ jsonEscape k ++ "\":" ++ sv
      let restS := jsonObjFields rest
      if restS = "" then piece else piece ++ "," ++ restS

end

/-- Own-property test, as used by both `key in value` (restricted to own
properties; the prototype chain is not modelled) and
`Object.prototype.hasOwnProperty`.  Arrays own their in-range canonical
indices and "length". -/
def jsHasOwn : JsValue → String → Bool
  | .obj fs, k => fs.hasKey k
  | .arr xs, k => k == "length" || (isCanonIndex k && digitsToNat k.data < xs.length)
  | _, _ => false

/-- Property read `value[key]` for a key that `jsHasOwn` accepts. -/
def jsGetOwn : JsValue → String → JsValue
  | .obj fs, k => (fs.get? k).getD .undef
  | .arr xs, k =>
    if k == "length" then .num xs.length
    else (xs.get? (digitsToNat k.data)).getD .undef
  | _, _ => (.undef)

/-- Replace every field named `k` by the new binding, keeping positions
(the map half of the spread update). -/
def objReplace : JsObj → String → JsValue → JsObj
  | .nil, _, _ => .nil
  | .cons k0 v0 tl, k, v =>
    if k0 == k then .cons k v (objReplace tl k v)
    else .cons k0 v0 (objReplace tl k v)

/-- Append a field at the end. -/
def objAppend : JsObj → String → JsValue → JsObj
  | .nil, k, v => .cons k v .nil
  | .cons k0 v0 tl, k, v => .cons k0 v0 (objAppend tl k v)

/-- Object-spread update `{...o, k: v}` restricted to one key: an existing
key keeps its position and receives the new value, a new key is appended. -/
def objUpd (fs : JsObj) (k : String) (v : JsValue) : JsObj :=
  if fs.hasKey k then objReplace fs k v else objAppend fs k v

namespace ContextResolver

/-- Embedding of `ContextResolver.resolve(context, path, defaultValue)` from
new-templater-core/src/utils/ContextResolver.js (lines 133-150): a falsy
context, a non-string path or an empty path short-circuit to the default;
otherwise the dot-separated segments are traversed, with any `null`,
non-object, or missing-own-property step short-circuiting to the default. -/
def resolve (context : JsValue) (path : JsValue) (defaultValue : JsValue) :
    JsValue :=
  if !jsTruthy context then defaultValue
  else
    match path with
    | .str p =>
      if p.length = 0 then defaultValue
      else walk (jsSplit "." p) context defaultValue
    | _ => defaultValue
where
  /-- The resolver's traversal loop over the path segments. -/
  walk : List String → JsValue → JsValue → JsValue
    | [], current, _ => current
    | part :: rest, current, defaultValue =>
      if current matches .null then defaultValue
      else if !jsTypeofObject current then defaultValue
      else if !jsHasOwn current part then defaultValue
      else walk rest (jsGetOwn current part) defaultValue

end ContextResolver

/-- Wrap a string in apostrophes, as the source's template literals do in
error messages. -/
def q (s : String) : String :=
  String.singleton squote ++ s ++ String.singleton squote

/-- Parsed-template tokens, as produced by `TemplateParser.parse` and
consumed by `ContextProcessor.process`.  The JS field named `variable` is
rendered `varName` (`variable` is a Lean keyword). -/
inductive Tok where
  | text (content : String)
  | placeholder (varName : String) (fullMatch : String)
  | loop (varName collection content fullMatch : String)
  | conditional (condition ifContent elseContent fullMatch : String)
  | moduleTag (moduleName data fullMatch : String)
  | rawXml (varName fullMatch : String)
  | paragraphPlaceholder (varName fullMatch : String)
  deriving DecidableEq, Repr

namespace ContextProcessor

/-- The two options `ContextProcessor` reads: `errorOnMissingData` (strict
mode) and `nullGetter` (modelled by the string the configured null-getter
returns; the default getter returns the empty string). -/
structure Options where
  nullGetter : String
  errorOnMissingData : Bool
  deriving DecidableEq, Repr

/-- The default options of DocxTemplaterPro and ContextProcessor. -/
def lenientOptions : Options := { nullGetter := "", errorOnMissingData := false }

/-- The default options with strict mode (`errorOnMissingData: true`). -/
def strictOptions : Options := { nullGetter := "", errorOnMissingData := true }

/-- Embedding of `ContextProcessor._getValue(path, context)` (part_000 lines
185-202): split the path on dots; a `null`/`undefined` intermediate value or
a step whose key is not an (own) property throws; `key in value` requires
`typeof value === "object"`. -/
def getValue (path : String) (context : JsValue) : Except String JsValue :=
  walk (jsSplit "." path) context
where
  /-- The traversal loop of `_getValue`. -/
  walk : List String → JsValue → Except String JsValue
    | [], value => .ok value
    | key :: rest, value =>
      if value matches .null then
        .error ("Cannot access property " ++ q key ++ " of null")
      else if value matches .undef then
        .error ("Cannot access property " ++ q key ++ " of undefined")
      else if jsTypeofObject value && jsHasOwn value key then
        walk rest (jsGetOwn value key)
      else .error ("Property " ++ q key ++ " not found in context")

/-- Substring containment on character lists, the model of JS
`String.prototype.includes`. -/
def listContainsSub (needle : List Char) : List Char → Bool
  | [] => needle.isEmpty
  | c :: rest => needle.isPrefixOf (c :: rest) || listContainsSub needle rest

/-- The comparator list of `_evaluateCondition`, in source order. -/
def operators : List String := ["==", "!=", ">=", "<=", ">", "<"]

/-- The switch over the six comparison operators in `_evaluateCondition`. -/
def compareOp (op : String) (l r : JsValue) : Bool :=
  if op = "==" then jsLooseEq l r
  else if op = "!=" then !jsLooseEq l r
  else if op = ">" then jsGt l r
  else if op = "<" then jsLt l r
  else if op = ">=" then jsGe l r
  else jsLe l r

/-- Embedding of `ContextProcessor._parseValue(value, context)` (part_000
lines 243-265): strip matching quotes; else a numeral (the `!isNaN` guard
uses ToNumber, so a whitespace-only string passes the guard but `parseFloat`
then yields NaN); else the `true`/`false` literals; else a context path,
falling back to the literal string when resolution throws. -/
def parseValue (value : String) (context : JsValue) : JsValue :=
  let dq := "\""
  let sq := String.singleton squote
  if (jsStartsWith value dq && jsEndsWith value dq)
      || (jsStartsWith value sq && jsEndsWith value sq) then
    .str ((value.drop 1).dropRight 1)
  else
    match jsStrToNumber value with
    | some n => if jsTrim value = "" then .nan else .num n
    | none =>
      if value = "true" then .bool true
      else if value = "false" then .bool false
      else
        match getValue value context with
        | .ok v => v
        | .error _ => .str value

/-- The try-block of `_evaluateCondition` as a fallible computation, with the
remaining operator list as an argument: the source's `for` loop returns from
inside the switch at the first operator that `condition.includes`, and falls
through to the truthiness check when no operator matches. -/
def evaluateConditionTry (condition : String) (context : JsValue) :
    List String → Except String Bool
  | [] => do
    let value ← getValue condition context
    pure (jsTruthy value)
  | op :: rest =>
    if listContainsSub op.toList condition.toList then do
      let parts := (jsSplit op condition).map jsTrim
      let left := parts.headD ""
      let right := (parts.drop 1).headD ""
      let leftValue ← getValue left context
      pure (compareOp op leftValue (parseValue right context))
    else evaluateConditionTry condition context rest

/-- Embedding of `ContextProcessor._evaluateCondition(condition, context)`
(part_000 lines 208-237): the try-block over the fixed operator list, with
the surrounding catch turning any thrown resolution error into `false`
(regardless of the strict-mode option, which this method never consults). -/
def evaluateCondition (condition : String) (context : JsValue) : Bool :=
  match evaluateConditionTry condition context operators with
  | .ok b => b
  | .error _ => false

/-- The first operator of the comparator list that occurs somewhere in the
condition — the one the source's loop selects. -/
def firstIncludedOp (condition : String) : Option String :=
  operators.find? (fun op => ContextProcessor.listContainsSub op.toList condition.toList)

/-- Split a string at the first occurrence of a (non-empty) separator:
`(before, after)`, or `none` when the separator does not occur. -/
def splitAtFirst (s sep : String) : Option (String × String) :=
  walk 0 s.data
where
  /-- Scan for the first position where `sep` is a prefix. -/
  walk : Nat → List Char → Option (String × String)
    | _, [] =>
      if sep = "" then some ("", "") else none
    | i, c :: rest =>
      if sep.toList.isPrefixOf (c :: rest) then
        some (⟨(s.data.take i)⟩, ⟨(s.data.drop (i + sep.length))⟩)
      else walk (i + 1) rest

/-- Modelled from the claim's words (C4): the expression is split at the
first occurrence of the selected comparator into trimmed left and right
parts, the right part being everything after that first occurrence.  This is
the claim-side reading to compare against the source's
`condition.split(op)` destructuring, which instead takes the segment between
the first and second occurrences as the right part. -/
def evaluateConditionClaim (condition : String) (context : JsValue) : Bool :=
  match firstIncludedOp condition with
  | some op =>
    match splitAtFirst condition op with
    | some (l, r) =>
      let left := jsTrim l
      let right := jsTrim r
      match getValue left context with
      | .ok leftValue => compareOp op leftValue (parseValue right context)
      | .error _ => false
    | none => false
  | none =>
    match getValue condition context with
    | .ok v => jsTruthy v
    | .error _ => false

/-- Embedding of `ContextProcessor._formatValue(value)` (part_000 lines
271-281): `null`/`undefined` yield the null-getter's value, objects and
arrays are JSON-stringified (always defined for composites), everything else
is coerced with `String(...)`. -/
def formatValue (opts : Options) (value : JsValue) : String :=
  if value matches .null then opts.nullGetter
  else if value matches .undef then opts.nullGetter
  else if isComposite value then (jsonStringify value).getD "undefined"
  else jsToString value

/-- Embedding of `ContextProcessor._parseContent(content)` (part_000 lines
287-296): the simplified nested-content parser, which wraps the whole
content in a single text token instead of re-running the template parser
(the source comments that a full implementation would use TemplateParser). -/
def parseContent (content : String) : List Tok :=
  [Tok.text content]

/-- Embedding of `ContextProcessor._removeParagraph(token)` (part_000 lines
299-307): a stub that returns the empty string; it neither analyses the XML
structure nor records any structural hint (the source has no structural-hint
mechanism at all). -/
def removeParagraph (_token : Tok) : String := ""

/-- Embedding of `ContextProcessor._processPlaceholder(token, context)`
(part_000 lines 65-75): resolve and format; on a thrown resolution error,
strict mode throws a fresh "Missing data for placeholder" error and lenient
mode substitutes the null-getter's value. -/
def processPlaceholder (opts : Options) (varName : String) (context : JsValue) :
    Except String String :=
  match getValue varName context with
  | .ok value => .ok (formatValue opts value)
  | .error _ =>
    if opts.errorOnMissingData then
      .error ("Missing data for placeholder: " ++ varName)
    else .ok opts.nullGetter

/-- Embedding of `ContextProcessor._processRawXml(token, context)` (part_000
lines 146-156): resolve; a truthy value is emitted via string coercion
(`value || ''` followed by `+=`), a falsy one contributes nothing; strict
mode rethrows the original resolution error. -/
def processRawXml (opts : Options) (varName : String) (context : JsValue) :
    Except String String :=
  match getValue varName context with
  | .ok value => .ok (if jsTruthy value then jsToString value else "")
  | .error e => if opts.errorOnMissingData then .error e else .ok ""

/-- The test `value === null || value === undefined || value === ''` of
`_processParagraphPlaceholder`. -/
def isNullUndefOrEmpty : JsValue → Bool
  | .null => true
  | .undef => true
  | .str s => s = ""
  | _ => false

/-- Embedding of `ContextProcessor._processParagraphPlaceholder(token,
context)` (part_000 lines 162-179): a `null`/`undefined`/empty-string value
— or, in lenient mode, a failed resolution — yields `_removeParagraph`
(the empty string); any other value is formatted like an ordinary
placeholder; strict mode rethrows the original resolution error. -/
def processParagraphPlaceholder (opts : Options) (varName : String)
    (context : JsValue) : Except String String :=
  match getValue varName context with
  | .ok value =>
    if isNullUndefOrEmpty value then
      .ok (removeParagraph (.paragraphPlaceholder varName ""))
    else .ok (formatValue opts value)
  | .error e =>
    if opts.errorOnMissingData then .error e
    else .ok (removeParagraph (.paragraphPlaceholder varName ""))

/-- The index-keyed fields an array contributes when object-spread
(`{...arrayValue}` yields `{"0": ..., "1": ...}`). -/
def arrIndexFields : JsArr → Nat → JsObj
  | .nil, _ => .nil
  | .cons hd tl, i => .cons (toString i) hd (arrIndexFields tl (i + 1))

/-- The derived per-iteration context built by `_processLoop`: the outer
context spread into a fresh object, shadowed with the loop variable and the
`$index`/`$first`/`$last`/`$length` bindings. -/
def mkLoopContext (context : JsValue) (varName : String) (item : JsValue)
    (i n : Nat) : JsValue :=
  let base :=
    match context with
    | .obj fs => fs
    | .arr xs => arrIndexFields xs 0
    | _ => JsObj.nil
  let f := objUpd base varName item
  let f := objUpd f "$index" (.num i)
  let f := objUpd f "$first" (.bool (i == 0))
  let f := objUpd f "$last" (.bool ((i : Int) == (n : Int) - 1))
  let f := objUpd f "$length" (.num n)
  .obj f

/-- Embedding of `ContextProcessor.process(parsedTemplate, context)`
(part_000 lines 19-59) together with the loop and conditional cases it
dispatches to (`_processLoop`, lines 81-117, and `_processConditional`,
lines 123-140).  The recursion through `_parseContent` is bounded by an
explicit fuel argument; since `_parseContent` only ever produces text
tokens, the real recursion depth is at most two and any fuel of at least two
makes the fuel case unreachable. -/
def processList (opts : Options) (fuel : Nat) : List Tok → JsValue → Except String String :=
  Nat.rec (motive := fun _ => List Tok → JsValue → Except String String)
    (fun _ _ => .error "process: fuel exhausted")
    (fun _ processListRec tokens context =>
    tokens.foldlM
      (fun result token =>
        (show Except String String from
         match token with
         | Tok.text content => .ok content
         | Tok.placeholder varName _ => processPlaceholder opts varName context
         | Tok.loop varName collection content _ =>
           -- _processLoop: try-block, with the catch rethrowing in strict
           -- mode and yielding '' in lenient mode
           let tryBody : Except String String := do
             let coll ← getValue collection context
             match coll with
             | .arr xs =>
               (List.range xs.length).foldlM
                 (fun acc i =>
                   let item := xs.getD i JsValue.undef
                   let loopContext := mkLoopContext context varName item i xs.length
                   (processListRec (parseContent content) loopContext).map
                     (fun s => acc ++ s))
                 ""
             | _ =>
               if opts.errorOnMissingData then
                 .error ("Loop collection is not an array: " ++ collection)
               else .ok ""
           match tryBody with
           | .ok s => .ok s
           | .error e => if opts.errorOnMissingData then .error e else .ok ""
         | Tok.conditional condition ifContent elseContent _ =>
           -- _processConditional: nothing in the try-block can throw (the
           -- parsed nested content is a single text token), so the catch
           -- branch — which would return the parsed-content OBJECT, coerced
           -- to "[object Object]" by += — is dead code
           let tryBody : Except String String :=
             let conditionResult := evaluateCondition condition context
             let contentToProcess := if conditionResult then ifContent else elseContent
             if contentToProcess ≠ "" then
               processListRec (parseContent contentToProcess) context
             else .ok ""
           match tryBody with
           | .ok s => .ok s
           | .error e =>
             if opts.errorOnMissingData then .error e
             else .ok (if elseContent ≠ "" then "[object Object]" else "")
         | Tok.rawXml varName _ => processRawXml opts varName context
         | Tok.paragraphPlaceholder varName _ =>
           processParagraphPlaceholder opts varName context
         | Tok.moduleTag _ _ fullMatch => .ok fullMatch).map
          (fun s => result ++ s))
      "")
    fuel

/-- Fuel with which the top-level `process` runs; the stub `_parseContent`
bounds the real recursion depth at two, so any value of at least two is
equivalent. -/
def processFuel : Nat := 100

/-- The `ContextProcessor.process` entry point over a parsed token list. -/
def process (opts : Options) (tokens : List Tok) (context : JsValue) :
    Except String String :=
  processList opts processFuel tokens context

end ContextProcessor

/-- JS word characters, the `\w` character class. -/
def isWordChar (c : Char) : Bool :=
  c.isAlphanum || c = '_'

/-- Match a literal character sequence at the head of the input, returning
the rest. -/
def litP (pat : List Char) (cs : List Char) : Option (List Char) :=
  if pat.isPrefixOf cs then some (cs.drop pat.length) else none

/-- First index at which `needle` occurs in `hay` (`String.prototype.indexOf`
over character lists). -/
def indexOfSub (needle : List Char) : List Char → Option Nat :=
  walk 0
where
  /-- Scan positions left to right. -/
  walk (i : Nat) : List Char → Option Nat
    | [] => if needle.isPrefixOf [] then some i else none
    | c :: rest =>
      if needle.isPrefixOf (c :: rest) then some i else walk (i + 1) rest

namespace TemplateParser

/-- Payload of one regex match found by `TemplateParser._findAllMatches`. -/
inductive MatchData where
  | loopM (varName collection content : String)
  | condM (condition ifContent elseContent : String)
  | moduleM (moduleName data : String)
  | placeholderM (varName : String)
  | rawM (varName : String)
  | paraM (varName : String)
  deriving DecidableEq, Repr

/-- One match record: start index, matched length, and captured payload. -/
structure RMatch where
  index : Nat
  length : Nat
  data : MatchData
  deriving DecidableEq, Repr

/-- The closing tag recogniser for a `\x7b%\s*WORD\s*%\x7d` tag with a fixed
keyword, used for `endloop`, `else` and `endif`; returns the matched
length. -/
def matchKeywordTag (word : List Char) (cs : List Char) : Option Nat := do
  let r0 ← litP [lbrace, '%'] cs
  let (_, r1) := r0.span Char.isWhitespace
  let r2 ← litP word r1
  let (_, r3) := r2.span Char.isWhitespace
  let r4 ← litP ['%', rbrace] r3
  pure (cs.length - r4.length)

/-- Position and length of the first occurrence of a keyword tag in the
input — this is how the lazy `(.*?)` group before such a tag behaves. -/
def findFirstTag (tagM : List Char → Option Nat) : List Char → Option (Nat × Nat)
  | [] => (tagM []).map (fun l => (0, l))
  | l@(_ :: rest) =>
    match tagM l with
    | some len => some (0, len)
    | none => (findFirstTag tagM rest).map (fun p => (p.1 + 1, p.2))

/-- Hand-compiled matcher for the loop regex
`\x7b%\s*loop\s+(\w+)\s+in\s+([^%]+)\s*%\x7d(.*?)\x7b%\s*endloop\s*%\x7d`
(with the `s` flag) at the start of the input.  The combination
`\s+([^%]+)\s*` followed by `%\x7d` consumes precisely the maximal run of
non-percent characters, which must start with whitespace and have length at
least two; the captured collection is that run, which the caller trims. -/
def matchLoopAt (cs : List Char) : Option (Nat × MatchData) := do
  let r0 ← litP [lbrace, '%'] cs
  let (_, r1) := r0.span Char.isWhitespace
  let r2 ← litP "loop".toList r1
  let (ws1, r3) := r2.span Char.isWhitespace
  if ws1.isEmpty then none
  else
    let (varC, r4) := r3.span isWordChar
    if varC.isEmpty then none
    else do
      let (ws2, r5) := r4.span Char.isWhitespace
      if ws2.isEmpty then none
      else do
        let r6 ← litP "in".toList r5
        let (collR, r7) := r6.span (· ≠ '%')
        match collR with
        | c1 :: _ :: _ =>
          if !c1.isWhitespace then none
          else do
            let r8 ← litP ['%', rbrace] r7
            let headerLen := cs.length - r8.length
            let (bodyLen, endLen) ← findFirstTag (matchKeywordTag "endloop".toList) r8
            pure (headerLen + bodyLen + endLen,
              .loopM (String.mk varC) (jsTrim (String.mk collR))
                (String.mk (r8.take bodyLen)))
        | _ => none

/-- Scanner for the body of a conditional: the lazy then-part grows until
either an else tag followed (possibly later) by an endif tag, or directly an
endif tag; returns the then-length, the optional pair of else-tag length and
else-content length, and the endif-tag length. -/
def condSplit : Nat → List Char → Option (Nat × Option (Nat × Nat) × Nat)
  | _, [] => none
  | i, c :: rest =>
    let l := c :: rest
    let tryHere : Option (Nat × Option (Nat × Nat) × Nat) :=
      match matchKeywordTag "else".toList l with
      | some elseLen =>
        match findFirstTag (matchKeywordTag "endif".toList) (l.drop elseLen) with
        | some (elseContentLen, endifLen) =>
          some (i, some (elseLen, elseContentLen), endifLen)
        | none => none
      | none =>
        (matchKeywordTag "endif".toList l).map (fun el => (i, none, el))
    match tryHere with
    | some r => some r
    | none => condSplit (i + 1) rest

/-- Hand-compiled matcher for the conditional regex
`\x7b%\s*if\s+([^%]+)\s*%\x7d(.*?)(?:\x7b%\s*else\s*%\x7d(.*?))?\x7b%\s*endif\s*%\x7d`
(with the `s` flag) at the start of the input. -/
def matchCondAt (cs : List Char) : Option (Nat × MatchData) := do
  let r0 ← litP [lbrace, '%'] cs
  let (_, r1) := r0.span Char.isWhitespace
  let r2 ← litP "if".toList r1
  let (condR, r3) := r2.span (· ≠ '%')
  match condR with
  | c1 :: _ :: _ =>
    if !c1.isWhitespace then none
    else do
      let r4 ← litP ['%', rbrace] r3
      let headerLen := cs.length - r4.length
      let (ifLen, elsePart, endifLen) ← condSplit 0 r4
      let condition := jsTrim (String.mk condR)
      let ifContent := String.mk (r4.take ifLen)
      match elsePart with
      | some (elseTagLen, elseContentLen) =>
        let elseContent :=
          String.mk (((r4.drop ifLen).drop elseTagLen).take elseContentLen)
        pure (headerLen + ifLen + elseTagLen + elseContentLen + endifLen,
          .condM condition ifContent elseContent)
      | none =>
        pure (headerLen + ifLen + endifLen, .condM condition ifContent "")
  | _ => none

/-- Hand-compiled matcher for the module-tag regex
`\x7b%\s*(\w+)\s+([^%]*)\s*%\x7d` at the start of the input: keyword, then a
maximal non-percent run that starts with whitespace, then the closing
delimiter; the data capture is that run, which the caller trims. -/
def matchModuleAt (cs : List Char) : Option (Nat × MatchData) := do
  let r0 ← litP [lbrace, '%'] cs
  let (_, r1) := r0.span Char.isWhitespace
  let (nameC, r2) := r1.span isWordChar
  if nameC.isEmpty then none
  else
    let (dataR, r3) := r2.span (· ≠ '%')
    match dataR with
    | c1 :: _ =>
      if !c1.isWhitespace then none
      else do
        let r4 ← litP ['%', rbrace] r3
        pure (cs.length - r4.length,
          .moduleM (String.mk nameC) (jsTrim (String.mk dataR)))
    | _ => none

/-- Hand-compiled matcher for the placeholder regex
`\x7b\x7b([^\x7d]+)\x7d\x7d` at the start of the input. -/
def matchPlaceholderAt (cs : List Char) : Option (Nat × MatchData) := do
  let r0 ← litP [lbrace, lbrace] cs
  let (run, r1) := r0.span (· ≠ rbrace)
  if run.isEmpty then none
  else do
    let r2 ← litP [rbrace, rbrace] r1
    pure (cs.length - r2.length, .placeholderM (jsTrim (String.mk run)))

/-- Hand-compiled matcher for the raw-XML regex `\x7b@([^\x7d]+)\x7d` at the
start of the input. -/
def matchRawAt (cs : List Char) : Option (Nat × MatchData) := do
  let r0 ← litP [lbrace, '@'] cs
  let (run, r1) := r0.span (· ≠ rbrace)
  if run.isEmpty then none
  else do
    let r2 ← litP [rbrace] r1
    pure (cs.length - r2.length, .rawM (jsTrim (String.mk run)))

/-- Hand-compiled matcher for the paragraph-placeholder regex
`\x7b\x7b\?([^\x7d]+)\x7d\x7d` at the start of the input. -/
def matchParaAt (cs : List Char) : Option (Nat × MatchData) := do
  let r0 ← litP [lbrace, lbrace, '?'] cs
  let (run, r1) := r0.span (· ≠ rbrace)
  if run.isEmpty then none
  else do
    let r2 ← litP [rbrace, rbrace] r1
    pure (cs.length - r2.length, .paraM (jsTrim (String.mk run)))

/-- Repeated application of one matcher along the input, with the global-flag
semantics of `RegExp.prototype.exec`: after a match the scan continues right
after it, otherwise it advances one position.  The fuel (input length plus
one) is an upper bound on the number of steps, never reached because every
match length is positive. -/
def scanAllAux (M : List Char → Option (Nat × MatchData)) :
    Nat → List Char → Nat → List RMatch
  | 0, _, _ => []
  | fuel + 1, cs, pos =>
    match M cs with
    | some (len, d) =>
      { index := pos, length := len, data := d } ::
        scanAllAux M fuel (cs.drop len) (pos + len)
    | none =>
      match cs with
      | [] => []
      | _ :: rest => scanAllAux M fuel rest (pos + 1)

/-- All matches of one pattern over the whole input. -/
def scanAll (M : List Char → Option (Nat × MatchData)) (content : List Char) :
    List RMatch :=
  scanAllAux M (content.length + 1) content 0

/-- Embedding of `TemplateParser._isPartOfLargerConstruct(content, index,
existingMatches)` (TemplateParser.js lines 190-194): whether the index falls
inside any already-collected match. -/
def isPartOfLargerConstruct (idx : Nat) (ms : List RMatch) : Bool :=
  ms.any (fun m => m.index ≤ idx && idx < m.index + m.length)

/-- Embedding of `TemplateParser._findAllMatches(content)`
(TemplateParser.js lines 80-184): loops and conditionals are collected
unconditionally; module tags, placeholders, raw-XML tags and paragraph
placeholders are each filtered against the matches collected before them. -/
def findAllMatches (content : List Char) : List RMatch :=
  let loops := scanAll matchLoopAt content
  let conds := scanAll matchCondAt content
  let base := loops ++ conds
  let mods := (scanAll matchModuleAt content).filter
    (fun m => !isPartOfLargerConstruct m.index base)
  let base := base ++ mods
  let phs := (scanAll matchPlaceholderAt content).filter
    (fun m => !isPartOfLargerConstruct m.index base)
  let base := base ++ phs
  let raws := (scanAll matchRawAt content).filter
    (fun m => !isPartOfLargerConstruct m.index base)
  let base := base ++ raws
  let paras := (scanAll matchParaAt content).filter
    (fun m => !isPartOfLargerConstruct m.index base)
  base ++ paras

/-- Stable insertion before the first element with a strictly greater key. -/
def stableInsertBy (key : α → Nat) (x : α) : List α → List α
  | [] => [x]
  | y :: rest =>
    if key y > key x then x :: y :: rest else y :: stableInsertBy key x rest

/-- Stable sort by a natural-number key, the model of the source's
`allMatches.sort((a, b) => a.index - b.index)` (Array.prototype.sort is
stable). -/
def stableSortBy (key : α → Nat) (l : List α) : List α :=
  l.foldl (fun acc x => stableInsertBy key x acc) []

/-- Substring of the input by start index and length. -/
def slice (content : List Char) (start len : Nat) : String :=
  String.mk ((content.drop start).take len)

/-- Convert a sorted match into the token `TemplateParser.parse` pushes,
with `fullMatch` recovered from the match's span. -/
def matchToTok (content : List Char) (m : RMatch) : Tok :=
  let fm := slice content m.index m.length
  match m.data with
  | .loopM v c b => .loop v c b fm
  | .condM c i e => .conditional c i e fm
  | .moduleM n d => .moduleTag n d fm
  | .placeholderM v => .placeholder v fm
  | .rawM v => .rawXml v fm
  | .paraM v => .paragraphPlaceholder v fm

/-- The token-assembly loop of `TemplateParser.parse` (TemplateParser.js
lines 35-74): gap text is emitted before a match only when the match starts
beyond the current position, and the position jumps to the end of each
match. -/
def buildTokens (content : List Char) : List RMatch → Nat → List Tok
  | [], position =>
    if position < content.length then
      [Tok.text (String.mk (content.drop position))]
    else []
  | m :: rest, position =>
    let pre :=
      if m.index > position then
        [Tok.text (slice content position (m.index - position))]
      else []
    pre ++ (matchToTok content m :: buildTokens content rest (m.index + m.length))

/-- Embedding of `TemplateParser.parse(content)` from
src/core/TemplateParser.js: find all matches, sort them by index (stably),
and interleave them with the text between them. -/
def parse (content : String) : List Tok :=
  let cs := content.data
  buildTokens cs (stableSortBy RMatch.index (findAllMatches cs)) 0

/-- Concatenation of the raw text of a token stream: the text content of
text tokens and the full matched text of tag tokens — the quantity the
tokenizer-totality claim says reconstructs the input. -/
def rawConcat (toks : List Tok) : String :=
  toks.foldl
    (fun acc t =>
      acc ++
        match t with
        | Tok.text c => c
        | Tok.placeholder _ fm => fm
        | Tok.loop _ _ _ fm => fm
        | Tok.conditional _ _ _ fm => fm
        | Tok.moduleTag _ _ fm => fm
        | Tok.rawXml _ fm => fm
        | Tok.paragraphPlaceholder _ fm => fm)
    ""

end TemplateParser

namespace TagParser

/-- Tokens produced by `TagParser.parse` (new-templater-core's cursor-based
tokenizer).  The JS field named `end` is rendered `stop` (`end` is a Lean
keyword); text tokens carry no span fields, as in the source. -/
inductive TPTok where
  | text (value : String)
  | rawXml (value fullMatch : String) (start stop : Nat)
  | loopTag (tagType tagData value fullMatch : String) (start stop : Nat)
  | condTag (tagType tagData value fullMatch : String) (start stop : Nat)
  | moduleTag (moduleName tagData value fullMatch : String) (start stop : Nat)
  | placeholder (value fullMatch : String) (start stop : Nat)
  deriving DecidableEq, Repr

/-- Embedding of `TagParser._matchTag(text, delimiters)` (TagParser.js lines
139-154): find the start delimiter ANYWHERE in the text, then the end
delimiter after it, and return the enclosed value and the full matched
text.  Note that the match is not anchored at the start of the text. -/
def matchTag (text : List Char) (dstart dend : List Char) :
    Option (String × String) := do
  let startIndex ← indexOfSub dstart text
  let afterStart := text.drop (startIndex + dstart.length)
  let endRel ← indexOfSub dend afterStart
  let value := String.mk (afterStart.take endRel)
  let fullMatch :=
    String.mk ((text.drop startIndex).take (dstart.length + endRel + dend.length))
  pure (value, fullMatch)

/-- Minimum of three optional indices, `none` playing the role of the
source's `Infinity`. -/
def minOpt3 : Option Nat → Option Nat → Option Nat → Option Nat
  | a, b, c =>
    let m2 : Option Nat → Option Nat → Option Nat
      | some x, some y => some (min x y)
      | some x, none => some x
      | none, o => o
    m2 (m2 a b) c

/-- One iteration of the `while` loop of `TagParser.parse` (TagParser.js
lines 25-127): try raw-XML, module and placeholder delimiters in that order
on the text from the cursor on; emit the token and advance the cursor by the
full match's length (the source adds only the match length even when the
match started beyond the cursor, which is where its spans go wrong); when
nothing matches, emit text up to the nearest start delimiter, or all
remaining text if there is none. -/
def step (content : List Char) (cursor : Nat) : TPTok × Nat :=
  let remaining := content.drop cursor
  match matchTag remaining [lbrace, '@'] [rbrace] with
  | some (value, fullMatch) =>
    (TPTok.rawXml (jsTrim value) fullMatch cursor (cursor + fullMatch.length),
      cursor + fullMatch.length)
  | none =>
  match matchTag remaining [lbrace, '%'] ['%', rbrace] with
  | some (value, fullMatch) =>
    let tagContent := jsTrim value
    let (tagType, tagData) :=
      match indexOfSub [' '] tagContent.data with
      | some i =>
        (String.mk (tagContent.data.take i),
          jsTrim (String.mk (tagContent.data.drop (i + 1))))
      | none => (tagContent, "")
    let stop := cursor + fullMatch.length
    if jsStartsWith tagType "loop" || jsStartsWith tagType "endloop" then
      (TPTok.loopTag tagType tagData value fullMatch cursor stop, stop)
    else if jsStartsWith tagType "if" || jsStartsWith tagType "endif"
        || jsStartsWith tagType "else" then
      (TPTok.condTag tagType tagData value fullMatch cursor stop, stop)
    else
      (TPTok.moduleTag tagType tagData value fullMatch cursor stop, stop)
  | none =>
  match matchTag remaining [lbrace, lbrace] [rbrace, rbrace] with
  | some (value, fullMatch) =>
    (TPTok.placeholder (jsTrim value) fullMatch cursor (cursor + fullMatch.length),
      cursor + fullMatch.length)
  | none =>
    let nextTagIndex :=
      minOpt3 (indexOfSub [lbrace, '@'] remaining)
        (indexOfSub [lbrace, '%'] remaining)
        (indexOfSub [lbrace, lbrace] remaining)
    match nextTagIndex with
    | none => (TPTok.text (String.mk remaining), content.length)
    | some i => (TPTok.text (String.mk (remaining.take i)), cursor + i)

/-- The `while (cursor < content.length)` loop of `TagParser.parse`, indexed
by fuel: `none` means the given number of iterations did not finish the
scan.  The source's loop has no fuel; an input on which every fuel value
yields `none` makes the source spin forever. -/
def parseAux (content : List Char) : Nat → Nat → Option (List TPTok)
  | 0, cursor => if cursor < content.length then none else some []
  | fuel + 1, cursor =>
    if cursor < content.length then
      let (tok, newCursor) := step content cursor
      (parseAux content fuel newCursor).map (tok :: ·)
    else some []

/-- Embedding of `TagParser.parse(content)` (TagParser.js lines 21-130),
fuel-indexed. -/
def parse (content : String) (fuel : Nat) : Option (List TPTok) :=
  parseAux content.data fuel 0

/-- Raw text of one token: the value of a text token, the full matched text
of a tag token. -/
def rawText : TPTok → String
  | .text v => v
  | .rawXml _ fm _ _ => fm
  | .loopTag _ _ _ fm _ _ => fm
  | .condTag _ _ _ fm _ _ => fm
  | .moduleTag _ _ _ fm _ _ => fm
  | .placeholder _ fm _ _ => fm

/-- Concatenated raw text of a token stream. -/
def rawConcat (toks : List TPTok) : String :=
  toks.foldl (fun acc t => acc ++ rawText t) ""

end TagParser

namespace ModuleManager

/-- The registration-relevant part of a module: its name and its optional
numeric priority (`module.priority` may be absent in JS). -/
structure RModule where
  name : String
  priority : Option Int
  deriving DecidableEq, Repr

/-- The effective priority `module.priority || 100` used on both sides of
the insertion comparison in `ModuleManager.register`: an absent priority
defaults to 100, and — because `0` is falsy in JS — a declared priority of
`0` is also treated as 100. -/
def effPriority (m : RModule) : Int :=
  match m.priority with
  | some p => if p = 0 then 100 else p
  | none => 100

/-- The insertion step of `ModuleManager.register` (part_001 lines 26-40):
`insertIndex` is the first position whose module has a strictly greater
effective priority (defaulting to the end), and the new name is spliced in
there.  This recursion inserts before the first strictly-greater element and
appends when there is none — exactly that computation. -/
def insertByPriority (m : RModule) : List RModule → List RModule
  | [] => [m]
  | e :: rest =>
    if effPriority e > effPriority m then m :: e :: rest
    else e :: insertByPriority m rest

/-- Embedding of `ModuleManager.register(module)` (part_001 lines 14-41) on
the processing-order list: `modules.set` overwrites an existing entry of the
same name in place (its position is kept), otherwise the name is inserted by
effective priority. -/
def register (l : List RModule) (m : RModule) : List RModule :=
  if l.any (fun e => e.name == m.name) then
    l.map (fun e => if e.name == m.name then m else e)
  else insertByPriority m l

/-- The processing order after registering a sequence of modules, in
registration order, starting from an empty manager. -/
def registerAll (ms : List RModule) : List RModule :=
  ms.foldl register []

/-- The raw declared priority with the documented default of 100 for an
absent one — but WITHOUT the zero-is-falsy coercion. -/
def rawPriority (m : RModule) : Int :=
  m.priority.getD 100

/-- Modelled from the claim's words (C7): stable insertion by the raw
priority value, ascending, ties broken by registration order.  Used as the
claim-side order to compare against what `register` actually computes. -/
def claimStableInsert (m : RModule) : List RModule → List RModule
  | [] => [m]
  | e :: rest =>
    if rawPriority e > rawPriority m then m :: e :: rest
    else e :: claimStableInsert m rest

/-- Modelled from the claim's words (C7): the priority-ascending,
registration-order-stable execution order the claim asserts. -/
def claimOrder (ms : List RModule) : List RModule :=
  ms.foldl (fun acc m => claimStableInsert m acc) []

/-- A module as seen by `ModuleManager.process`: the metadata consulted by
`_shouldProcessModule` plus the module's `process` implementation, modelled
as a fallible function of the content (the analysed behaviour does not
depend on the context argument modules receive). -/
structure PModule where
  name : String
  supportedTypes : Option (List String)
  hasTagsToProcess : Option (String → Bool)
  run : String → Except String String

/-- The context object handed to `ModuleManager.process`; `content` is the
property `_shouldProcessModule` reads (absent in the object
`DocxTemplaterPro._processXmlContent` constructs). -/
structure ProcessContext where
  errorOnMissingData : Bool
  documentType : String
  content : Option String

/-- Embedding of `ModuleManager._shouldProcessModule(module, context)`
(part_001 lines 123-135): a declared `supportedTypes` list must contain the
document type; a module with `hasTagsToProcess` is asked about
`context.content || ''`; otherwise the module always runs. -/
def shouldProcessModule (m : PModule) (ctx : ProcessContext) : Bool :=
  if (match m.supportedTypes with
      | some ts => !ts.contains ctx.documentType
      | none => false) then false
  else
    match m.hasTagsToProcess with
    | some f => f (ctx.content.getD "")
    | none => true

/-- The module-iteration loop of `ModuleManager.process` (part_001 lines
78-100), threading the content and accumulating the `console.warn` messages
the lenient path emits: an applicable module's error is wrapped as
"Module NAME failed: ..." and either re-thrown (when
`context.errorOnMissingData` is truthy) or logged, with processing
continuing on the pre-phase content. -/
def processAux (ctx : ProcessContext) :
    List PModule → String → List String → Except String (String × List String)
  | [], content, warnings => .ok (content, warnings)
  | m :: rest, content, warnings =>
    if shouldProcessModule m ctx then
      match m.run content with
      | .ok processed => processAux ctx rest processed warnings
      | .error e =>
        if ctx.errorOnMissingData then
          .error ("Module " ++ m.name ++ " failed: " ++ e)
        else
          processAux ctx rest content
            (warnings ++ ["Module " ++ m.name ++ " failed: " ++ e])
    else processAux ctx rest content warnings

/-- Embedding of `ModuleManager.process(content, context)` over the modules
in processing order. -/
def process (mods : List PModule) (ctx : ProcessContext) (content : String) :
    Except String (String × List String) :=
  processAux ctx mods content []

end ModuleManager

namespace DocxTemplaterPro

/-- An entry of the `this.errors` array `DocxTemplaterPro._processXmlContent`
pushes on failure — the only error collector in the library. -/
structure ErrRec where
  message : String
  location : String
  documentType : String
  deriving DecidableEq, Repr

/-- Embedding of `DocxTemplaterPro._processXmlContent(xmlContent,
documentType)` (part_002 lines 249-278): parse, process with the context,
then run the modules; any exception is recorded in `this.errors` and, under
`errorOnMissingData`, re-thrown (result `none`), otherwise the ORIGINAL
content is returned.  The module-processing context the source constructs is
`{ context: this.context, documentType, zip: this.zip }`, which carries no
`errorOnMissingData` property, so the module manager always sees a falsy
strict flag and no `content` property. -/
def processXmlContent (opts : ContextProcessor.Options)
    (mods : List ModuleManager.PModule) (context : JsValue)
    (documentType : String) (xmlContent : String) :
    Option String × List ErrRec :=
  let parsed := TemplateParser.parse xmlContent
  let tryResult : Except String String := do
    let processedContent ← ContextProcessor.process opts parsed context
    let (result, _warnings) ← ModuleManager.process mods
      { errorOnMissingData := false, documentType := documentType, content := none }
      processedContent
    pure result
  match tryResult with
  | .ok result => (some result, [])
  | .error msg =>
    let errRecord : ErrRec :=
      { message := msg, location := "XML processing", documentType := documentType }
    if opts.errorOnMissingData then (none, [errRecord])
    else (some xmlContent, [errRecord])

end DocxTemplaterPro

namespace ImageModule

/-- The relationship-id allocation of `ImageModule._createImageXml`
(SubtemplateModule.js lines 107-135), abstracted to the id/counter flow the
asset-id claim is about (the WordprocessingML/DrawingML the method builds is
immaterial to it): the id `rId(1000 + counter)` is registered with the
document via `_addImageToDocument`, and then — only on the branch where the
document type is neither docx nor pptx — `this.imageCounter++` runs, because
for docx and pptx the method RETURNS before reaching the increment. -/
def createImageXml (imageCounter : Nat) (documentType : String) : String × Nat :=
  let relationshipId := "rId" ++ toString (1000 + imageCounter)
  if documentType == "docx" then (relationshipId, imageCounter)
  else if documentType == "pptx" then (relationshipId, imageCounter)
  else (relationshipId, imageCounter + 1)

/-- The ids allocated by one `process` invocation that encounters `n` image
tags whose data resolves (each such tag calls `_createImageXml` once, in
order), together with the module-instance counter it leaves behind. -/
def renderAlloc (documentType : String) : Nat → Nat → List String × Nat
  | 0, counter => ([], counter)
  | n + 1, counter =>
    let (relationshipId, counter') := createImageXml counter documentType
    let (ids, counterFinal) := renderAlloc documentType n counter'
    (relationshipId :: ids, counterFinal)

/-- The counter value a fresh `ImageModule` starts with
(`this.imageCounter = 1` in the constructor; no method ever resets it). -/
def initialCounter : Nat := 1

end ImageModule

namespace QrCodeModule

/-- The relationship-id allocation of `QrCodeModule._createQrCodeXml`
(QrCodeModule.js lines 105-127), exactly parallel to the image module but
with base 2000 and `this.qrCounter`: the increment sits after the docx/pptx
returns and so never runs for those types. -/
def createQrCodeXml (qrCounter : Nat) (documentType : String) : String × Nat :=
  let relationshipId := "rId" ++ toString (2000 + qrCounter)
  if documentType == "docx" then (relationshipId, qrCounter)
  else if documentType == "pptx" then (relationshipId, qrCounter)
  else (relationshipId, qrCounter + 1)

/-- The ids allocated by one `process` invocation over `n` resolvable
qrcode tags, with the final counter. -/
def renderAlloc (documentType : String) : Nat → Nat → List String × Nat
  | 0, counter => ([], counter)
  | n + 1, counter =>
    let (relationshipId, counter') := createQrCodeXml counter documentType
    let (ids, counterFinal) := renderAlloc documentType n counter'
    (relationshipId :: ids, counterFinal)

/-- The constructor's `this.qrCounter = 1`. -/
def initialCounter : Nat := 1

end QrCodeModule

/-- A module whose `process` implementation always throws, with no
type or tag restrictions — used to exercise the module-boundary error
handling of `ModuleManager.process`. -/
def failingModule : ModuleManager.PModule :=
  { name := "bad", supportedTypes := none, hasTagsToProcess := none,
    run := fun _ => .error "boom" }

/-! Theorems about the embedded definitions. -/

/-- Helper for C3: the resolver's traversal loop either ignores the default
entirely (it found a value) or returns exactly the supplied default, for
every pair of defaults — it has no other outcome and, being a total
function, cannot raise. -/
theorem resolve_walk_dichotomy (parts : List String) (cur d d' : JsValue) :
    ContextResolver.resolve.walk parts cur d = ContextResolver.resolve.walk parts cur d'
    ∨ (ContextResolver.resolve.walk parts cur d = d
        ∧ ContextResolver.resolve.walk parts cur d' = d') := by
  induction parts generalizing cur with
  | nil => left; rfl
  | cons k rest ih =>
    show (if cur matches .null then d else _) = _ ∨ _
    by_cases h0 : cur matches JsValue.null
    · right
      constructor <;> simp [ContextResolver.resolve.walk, h0]
    · by_cases h1 : jsTypeofObject cur
      · by_cases h2 : jsHasOwn cur k
        · have := ih (jsGetOwn cur k)
          simpa [ContextResolver.resolve.walk, h0, h1, h2] using this
        · right
          constructor <;> simp [ContextResolver.resolve.walk, h0, h1, h2]
      · right
        constructor <;> simp [ContextResolver.resolve.walk, h0, h1]

/-- C3: the context resolver is safe: for every context, every path string
and every pair of caller defaults, `resolve` either returns a value that is
independent of the default (the path was found) or returns exactly the
supplied default (the not-found outcome) — it never has any other
behaviour, and in particular never raises (it is a total function).
Moreover the claim's cases are instances: resolving the path "a.b.c"
against a context whose "a" is any non-composite (Scalar) value — indexing
into a Scalar — yields the default, as do a missing key and an
out-of-range sequence index. -/
theorem c3_resolve_safety (context : JsValue) (path : String) (d d' v dflt : JsValue)
    (hv : isComposite v = false) :
    (ContextResolver.resolve context (.str path) d =
        ContextResolver.resolve context (.str path) d'
      ∨ (ContextResolver.resolve context (.str path) d = d
          ∧ ContextResolver.resolve context (.str path) d' = d'))
    ∧ ContextResolver.resolve (jsObjOf [("a", v)]) (.str "a.b.c") dflt = dflt
    ∧ ContextResolver.resolve (jsObjOf [("a", v)]) (.str "missing") dflt = dflt
    ∧ ContextResolver.resolve (jsObjOf [("xs", jsArrOf [v])]) (.str "xs.5") dflt = dflt := by
  refine ⟨?_, ?_, rfl, rfl⟩
  · by_cases ht : jsTruthy context
    · by_cases hl : path.length = 0
      · right; constructor <;> simp [ContextResolver.resolve, ht, hl]
      · have := resolve_walk_dichotomy (jsSplit "." path) context d d'
        simpa [ContextResolver.resolve, ht, hl] using this
    · right; constructor <;> simp [ContextResolver.resolve, ht]
  · have h1 : ContextResolver.resolve (jsObjOf [("a", v)]) (.str "a.b.c") dflt
        = ContextResolver.resolve.walk ["b", "c"] v dflt := rfl
    rw [h1]
    cases v <;> first
      | rfl
      | simp [isComposite] at hv

/-- Witness for C3 at concrete inputs. -/
theorem c3_resolve_safety_witness :
    isComposite (JsValue.str "s") = false
    ∧ ((ContextResolver.resolve (jsObjOf [("x", JsValue.num 1)]) (JsValue.str "x")
          (JsValue.str "D") =
        ContextResolver.resolve (jsObjOf [("x", JsValue.num 1)]) (JsValue.str "x")
          (JsValue.str "E")
      ∨ (ContextResolver.resolve (jsObjOf [("x", JsValue.num 1)]) (JsValue.str "x")
            (JsValue.str "D") = JsValue.str "D"
          ∧ ContextResolver.resolve (jsObjOf [("x", JsValue.num 1)]) (JsValue.str "x")
              (JsValue.str "E") = JsValue.str "E"))
      ∧ ContextResolver.resolve (jsObjOf [("a", JsValue.str "s")]) (JsValue.str "a.b.c")
          (JsValue.str "F") = JsValue.str "F"
      ∧ ContextResolver.resolve (jsObjOf [("a", JsValue.str "s")]) (JsValue.str "missing")
          (JsValue.str "F") = JsValue.str "F"
      ∧ ContextResolver.resolve (jsObjOf [("xs", jsArrOf [JsValue.str "s"])])
          (JsValue.str "xs.5") (JsValue.str "F") = JsValue.str "F") :=
  ⟨rfl, c3_resolve_safety (jsObjOf [("x", JsValue.num 1)]) "x" (JsValue.str "D")
    (JsValue.str "E") (JsValue.str "s") (JsValue.str "F") rfl⟩

/-- C10: `ContextResolver.resolve` returns the caller-supplied default
without any traversal whenever the path is the empty string, the path is not
a string at all, or the context is `null`/`undefined`; in particular an
empty path never yields the root context. -/
theorem c10_resolve_guards (context path d : JsValue)
    (h : path = .str "" ∨ isStr path = false ∨ context = .null ∨ context = .undef) :
    ContextResolver.resolve context path d = d := by
  rcases h with h | h | h | h
  · subst h
    by_cases ht : jsTruthy context <;> simp [ContextResolver.resolve, ht]
  · by_cases ht : jsTruthy context
    · cases path <;> simp_all [ContextResolver.resolve, isStr]
    · simp [ContextResolver.resolve, ht]
  · subst h; simp [ContextResolver.resolve, jsTruthy]
  · subst h; simp [ContextResolver.resolve, jsTruthy]

/-- Witness for C10 at concrete inputs: the empty path against a non-empty
context returns the default, not the root. -/
theorem c10_resolve_guards_witness :
    (JsValue.str "" = JsValue.str "" ∨ isStr (JsValue.str "") = false
      ∨ jsObjOf [("a", JsValue.num 7)] = JsValue.null
      ∨ jsObjOf [("a", JsValue.num 7)] = JsValue.undef)
    ∧ ContextResolver.resolve (jsObjOf [("a", JsValue.num 7)]) (JsValue.str "")
        (JsValue.str "DEFAULT") = JsValue.str "DEFAULT" :=
  ⟨Or.inl rfl,
    c10_resolve_guards (jsObjOf [("a", JsValue.num 7)]) (JsValue.str "")
      (JsValue.str "DEFAULT") (Or.inl rfl)⟩

/-- C1: evaluation of both tokenizers at the failing inputs.  On the
unclosed tag "\x7b\x7babc" the cursor-based `TagParser.parse` loop step
emits an empty text token without advancing the cursor, so no amount of
fuel completes the scan — the source's `while` loop runs forever instead of
degrading to text.  On "a\x7b\x7bb\x7d\x7d" the unanchored `_matchTag`
finds the tag one position past the cursor but advances the cursor by only
the tag's length, so the leading "a" is lost and the trailing brace is read
twice: the concatenated raw spans differ from the input.  The regex-based
`TemplateParser.parse` likewise violates span reconstruction on
"\x7b@m\x7b\x7bx\x7d\x7d", where a raw-XML match and a placeholder match
overlap. -/
theorem c1_tokenizer_code_bug :
    (∀ fuel, TagParser.parse "\x7b\x7babc" fuel = none)
    ∧ (TagParser.parse "a\x7b\x7bb\x7d\x7d" 10).map TagParser.rawConcat =
        some "\x7b\x7bb\x7d\x7d\x7d"
    ∧ "\x7b\x7bb\x7d\x7d\x7d" ≠ "a\x7b\x7bb\x7d\x7d"
    ∧ TemplateParser.rawConcat (TemplateParser.parse "\x7b@m\x7b\x7bx\x7d\x7d") =
        "\x7b@m\x7b\x7bx\x7d\x7b\x7bx\x7d\x7d"
    ∧ "\x7b@m\x7b\x7bx\x7d\x7b\x7bx\x7d\x7d" ≠ "\x7b@m\x7b\x7bx\x7d\x7d" := by
  refine ⟨?_, rfl, by decide, rfl, by decide⟩
  intro fuel
  induction fuel with
  | zero => rfl
  | succ n ih =>
    have key : TagParser.parse "\x7b\x7babc" (n + 1) =
        Option.map (fun ts => TagParser.TPTok.text "" :: ts)
          (TagParser.parse "\x7b\x7babc" n) := rfl
    rw [key, ih]
    rfl

/-- C2: evaluation of the render pipeline at the loop scenarios.  Because
`ContextProcessor._parseContent` is a stub that wraps the loop body in a
single text token, the body is emitted verbatim once per element — no
placeholder substitution, no nested-loop evaluation — so Scenario 2
produces "\x7b\x7bx\x7d\x7d,..." instead of "1,2,3," and Scenario 6 leaves
the inner loop text and a stray endloop tag instead of "123". -/
theorem c2_loop_rendering_code_bug :
    DocxTemplaterPro.processXmlContent ContextProcessor.lenientOptions []
        (jsObjOf [("items", jsArrOf [JsValue.num 1, JsValue.num 2, JsValue.num 3])])
        "docx" "\x7b%loop x in items%\x7d\x7b\x7bx\x7d\x7d,\x7b%endloop%\x7d"
      = (some "\x7b\x7bx\x7d\x7d,\x7b\x7bx\x7d\x7d,\x7b\x7bx\x7d\x7d,", [])
    ∧ "\x7b\x7bx\x7d\x7d,\x7b\x7bx\x7d\x7d,\x7b\x7bx\x7d\x7d," ≠ "1,2,3,"
    ∧ DocxTemplaterPro.processXmlContent ContextProcessor.lenientOptions []
        (jsObjOf [("b", jsArrOf
          [jsArrOf [JsValue.num 1, JsValue.num 2], jsArrOf [JsValue.num 3]])])
        "docx"
        "\x7b%loop a in b%\x7d\x7b%loop c in a%\x7d\x7b\x7bc\x7d\x7d\x7b%endloop%\x7d\x7b%endloop%\x7d"
      = (some "\x7b%loop c in a%\x7d\x7b\x7bc\x7d\x7d\x7b%loop c in a%\x7d\x7b\x7bc\x7d\x7d\x7b%endloop%\x7d",
          [])
    ∧ "\x7b%loop c in a%\x7d\x7b\x7bc\x7d\x7d\x7b%loop c in a%\x7d\x7b\x7bc\x7d\x7d\x7b%endloop%\x7d"
        ≠ "123" :=
  ⟨rfl, by decide, rfl, by decide⟩

/-- Counterexample for C4: in the expression "a==b==c" (the first-listed
operator occurring twice), the source's `condition.split(op)` destructuring
takes "b" — the segment BETWEEN the first and second occurrences — as the
right operand, not "b==c" as the claim's split-at-the-first-operator
reading demands; with "a" resolving to "b" the source evaluates the
condition to true while the claim-side reading evaluates it to false. -/
theorem c4_first_split_counterexample :
    ContextProcessor.evaluateCondition "a==b==c" (jsObjOf [("a", JsValue.str "b")]) = true
    ∧ ContextProcessor.evaluateConditionClaim "a==b==c"
        (jsObjOf [("a", JsValue.str "b")]) = false
    ∧ true ≠ false :=
  ⟨rfl, rfl, by decide⟩

/-- Counterexample for C5: rendering "\x7b\x7bmissing\x7d\x7d" in lenient
mode yields the output "" but records NOTHING — the claim's "exactly one
Recoverable ResolutionError recorded" is false, because
`_processPlaceholder` swallows the resolution failure and substitutes the
null-getter before any collector is reached. -/
theorem c5_lenient_records_nothing :
    DocxTemplaterPro.processXmlContent ContextProcessor.lenientOptions [] (jsObjOf [])
        "docx" "\x7b\x7bmissing\x7d\x7d" = (some "", [])
    ∧ (DocxTemplaterPro.processXmlContent ContextProcessor.lenientOptions [] (jsObjOf [])
        "docx" "\x7b\x7bmissing\x7d\x7d").2.length ≠ 1 :=
  ⟨rfl, by decide⟩

/-- C5 (amended): in lenient mode "\x7b\x7bmissing\x7d\x7d" renders to ""
with an empty error list; in strict mode the render raises (no output for
the unit) and exactly one error record — the placeholder's
"Missing data for placeholder" message — is pushed onto `this.errors`. -/
theorem c5_scenario5_amended :
    DocxTemplaterPro.processXmlContent ContextProcessor.lenientOptions [] (jsObjOf [])
        "docx" "\x7b\x7bmissing\x7d\x7d" = (some "", [])
    ∧ DocxTemplaterPro.processXmlContent ContextProcessor.strictOptions [] (jsObjOf [])
        "docx" "\x7b\x7bmissing\x7d\x7d" =
      (none, [{ message := "Missing data for placeholder: missing",
                location := "XML processing", documentType := "docx" }]) :=
  ⟨rfl, rfl⟩

/-- C6: evaluation at the paragraph-placeholder scenario.  The empty-valued
paragraph placeholder renders to the empty string, but no structural hint
of any kind is produced: `_removeParagraph` is a stub returning "" (the
functions return bare strings — there is no hint mechanism anywhere in the
code), and in the actual pipeline "\x7b\x7b?bio\x7d\x7d" is not even
classified as a paragraph placeholder, because the plain-placeholder regex
matches it first (capturing the variable "?bio").  A non-empty value is
formatted like an ordinary placeholder. -/
theorem c6_paragraph_placeholder_code_bug :
    ContextProcessor.processParagraphPlaceholder ContextProcessor.lenientOptions "bio"
        (jsObjOf [("bio", JsValue.str "")]) = .ok ""
    ∧ ContextProcessor.removeParagraph (Tok.paragraphPlaceholder "bio" "\x7b\x7b?bio\x7d\x7d") = ""
    ∧ TemplateParser.parse "\x7b\x7b?bio\x7d\x7d" = [Tok.placeholder "?bio" "\x7b\x7b?bio\x7d\x7d"]
    ∧ DocxTemplaterPro.processXmlContent ContextProcessor.lenientOptions []
        (jsObjOf [("bio", JsValue.str "")]) "docx" "\x7b\x7b?bio\x7d\x7d" = (some "", [])
    ∧ ContextProcessor.processParagraphPlaceholder ContextProcessor.lenientOptions "bio"
        (jsObjOf [("bio", JsValue.str "hi")]) = .ok "hi" :=
  ⟨rfl, rfl, rfl, rfl, rfl⟩

/-- Counterexample for C7: registering A with priority 50 and then B with
priority 0, the manager's order is [A, B] — the `|| 100` default coerces
the falsy priority 0 to 100 — while the claim's priority-ascending stable
order is [B, A]. -/
theorem c7_priority_zero_counterexample :
    (ModuleManager.registerAll
        [{ name := "A", priority := some 50 }, { name := "B", priority := some 0 }]).map
      ModuleManager.RModule.name = ["A", "B"]
    ∧ (ModuleManager.claimOrder
        [{ name := "A", priority := some 50 }, { name := "B", priority := some 0 }]).map
      ModuleManager.RModule.name = ["B", "A"]
    ∧ (["A", "B"] : List String) ≠ ["B", "A"] :=
  ⟨rfl, rfl, by decide⟩

namespace ModuleManager

/-- Helper for C7: inserting before the first strictly-greater element is a
permutation of prepending. -/
theorem insertByPriority_perm (m : RModule) (l : List RModule) :
    (insertByPriority m l).Perm (m :: l) := by
  induction l with
  | nil => simp [insertByPriority]
  | cons e rest ih =>
    by_cases h : effPriority e > effPriority m
    · simp [insertByPriority, h]
    · simp only [insertByPriority, if_neg h]
      exact (ih.cons e).trans (List.Perm.swap m e rest)

/-- Helper for C7: the insertion keeps the list sorted by effective
priority. -/
theorem insertByPriority_pairwise (m : RModule) (l : List RModule)
    (h : l.Pairwise (fun a b => effPriority a ≤ effPriority b)) :
    (insertByPriority m l).Pairwise (fun a b => effPriority a ≤ effPriority b) := by
  induction l with
  | nil => simp [insertByPriority]
  | cons e rest ih =>
    rcases List.pairwise_cons.mp h with ⟨he, hrest⟩
    by_cases hgt : effPriority e > effPriority m
    · simp only [insertByPriority, if_pos hgt]
      refine List.pairwise_cons.mpr ⟨?_, h⟩
      intro b hb
      rcases List.mem_cons.mp hb with rfl | hb
      · exact le_of_lt hgt
      · exact le_trans (le_of_lt hgt) (he b hb)
    · simp only [insertByPriority, if_neg hgt]
      refine List.pairwise_cons.mpr ⟨?_, ih hrest⟩
      intro b hb
      have hb' : b = m ∨ b ∈ rest := by
        simpa using (insertByPriority_perm m rest).mem_iff.mp hb
      rcases hb' with rfl | hb'
      · exact not_lt.mp hgt
      · exact he b hb'

/-- Helper for C7: on a sorted list, the insertion places the new element
after every element of equal effective priority — each priority class keeps
its relative order, with the new element appended to its own class. -/
theorem insertByPriority_filter (m : RModule) (l : List RModule) (p : Int)
    (h : l.Pairwise (fun a b => effPriority a ≤ effPriority b)) :
    (insertByPriority m l).filter (fun x => effPriority x == p) =
      if effPriority m == p then
        l.filter (fun x => effPriority x == p) ++ [m]
      else l.filter (fun x => effPriority x == p) := by
  induction l with
  | nil =>
    by_cases hm : effPriority m == p <;>
      simp [insertByPriority, List.filter, hm]
  | cons e rest ih =>
    rcases List.pairwise_cons.mp h with ⟨he, hrest⟩
    by_cases hgt : effPriority e > effPriority m
    · simp only [insertByPriority, if_pos hgt]
      by_cases hm : effPriority m == p
      · have hp : effPriority m = p := by simpa using hm
        have hnil : (e :: rest).filter (fun x => effPriority x == p) = [] := by
          rw [List.filter_eq_nil_iff]
          intro a ha
          have hlt : p < effPriority a := by
            rcases List.mem_cons.mp ha with rfl | ha'
            · exact hp ▸ hgt
            · exact lt_of_lt_of_le (hp ▸ hgt) (he a ha')
          simpa using (ne_of_lt hlt).symm
        simp [List.filter_cons, hm, hnil]
      · simp [List.filter_cons, hm]
    · simp only [insertByPriority, if_neg hgt]
      by_cases h1 : effPriority e == p <;>
        by_cases hm : effPriority m == p <;>
          simp [List.filter_cons, h1, hm, ih hrest]

/-- Helper for C7: the invariant of the registration fold — starting from a
state that is a sorted, class-stable permutation of the already-registered
modules, folding the remaining registrations (with globally distinct names)
yields a sorted, class-stable permutation of the whole registration
sequence. -/
theorem registerAll_invariants (ms : List RModule) : ∀ (acc done : List RModule),
    acc.Perm done →
    acc.Pairwise (fun a b => effPriority a ≤ effPriority b) →
    (∀ p : Int, acc.filter (fun x => effPriority x == p)
      = done.filter (fun x => effPriority x == p)) →
    ((done ++ ms).map RModule.name).Nodup →
    (ms.foldl register acc).Perm (done ++ ms)
    ∧ (ms.foldl register acc).Pairwise (fun a b => effPriority a ≤ effPriority b)
    ∧ ∀ p : Int, (ms.foldl register acc).filter (fun x => effPriority x == p)
        = (done ++ ms).filter (fun x => effPriority x == p) := by
  induction ms with
  | nil =>
    intro acc done hperm hsort hfilt _
    simpa using ⟨hperm, hsort, hfilt⟩
  | cons m rest ih =>
    intro acc done hperm hsort hfilt hnodup
    have hfresh : m.name ∉ done.map RModule.name := by
      intro hmem
      rw [List.map_append] at hnodup
      have hdis := (List.nodup_append.mp hnodup).2.2
      exact hdis hmem (by simp)
    have hnotin : acc.any (fun e => e.name == m.name) = false := by
      by_contra hany
      have hany' : acc.any (fun e => e.name == m.name) = true := by
        simpa using hany
      rcases List.any_eq_true.mp hany' with ⟨e, he, hename⟩
      have hename' : e.name = m.name := by simpa using hename
      have : e ∈ done := hperm.mem_iff.mp he
      exact hfresh (hename' ▸ List.mem_map_of_mem RModule.name this)
    have hreg : register acc m = insertByPriority m acc := by
      simp [register, hnotin]
    rw [List.foldl_cons, hreg]
    have hres := ih (insertByPriority m acc) (done ++ [m])
      ((insertByPriority_perm m acc).trans
        ((hperm.cons m).trans (List.perm_append_singleton m done).symm))
      (insertByPriority_pairwise m acc hsort)
      (by
        intro p
        rw [insertByPriority_filter m acc p hsort, List.filter_append, hfilt p]
        by_cases hm : effPriority m == p <;> simp [hm, List.filter])
      (by
        rw [List.append_assoc, List.singleton_append]
        exact hnodup)
    rw [List.append_assoc, List.singleton_append] at hres
    exact hres

end ModuleManager

/-- C7 (amended): for every registration sequence with distinct names, the
processing order `ModuleManager.register` builds is exactly the stable sort
of the registration sequence by EFFECTIVE priority — `priority || 100`,
which coerces a missing priority, and also the falsy priority 0, to 100 —
ascending, with ties kept in registration order: the order is a permutation
of the registered modules, is non-decreasing in effective priority, and
restricted to any one priority class coincides with the registration
order.  The order is a pure function of the registration sequence, so
re-running a pipeline over it is deterministic. -/
theorem c7_register_order_amended (ms : List ModuleManager.RModule)
    (h : (ms.map ModuleManager.RModule.name).Nodup) :
    (ModuleManager.registerAll ms).Perm ms
    ∧ (ModuleManager.registerAll ms).Pairwise
        (fun a b => ModuleManager.effPriority a ≤ ModuleManager.effPriority b)
    ∧ ∀ p : Int, (ModuleManager.registerAll ms).filter
          (fun x => ModuleManager.effPriority x == p)
        = ms.filter (fun x => ModuleManager.effPriority x == p) := by
  have hres := ModuleManager.registerAll_invariants ms [] []
    (List.Perm.refl _) (by simp) (fun _ => rfl) (by simpa using h)
  simpa [ModuleManager.registerAll] using hres

/-- Witness for C7 at concrete inputs. -/
theorem c7_register_order_amended_witness :
    (([{ name := "M", priority := some 5 }, { name := "N", priority := none }] :
        List ModuleManager.RModule).map ModuleManager.RModule.name).Nodup
    ∧ ((ModuleManager.registerAll
          [{ name := "M", priority := some 5 }, { name := "N", priority := none }]).Perm
        [{ name := "M", priority := some 5 }, { name := "N", priority := none }]
      ∧ (ModuleManager.registerAll
          [{ name := "M", priority := some 5 }, { name := "N", priority := none }]).Pairwise
          (fun a b => ModuleManager.effPriority a ≤ ModuleManager.effPriority b)
      ∧ ∀ p : Int, (ModuleManager.registerAll
            [{ name := "M", priority := some 5 }, { name := "N", priority := none }]).filter
            (fun x => ModuleManager.effPriority x == p)
          = ([{ name := "M", priority := some 5 }, { name := "N", priority := none }] :
              List ModuleManager.RModule).filter
              (fun x => ModuleManager.effPriority x == p)) :=
  ⟨by decide, c7_register_order_amended
    [{ name := "M", priority := some 5 }, { name := "N", priority := none }] (by decide)⟩

/-- Helper for C4: the operator loop of `_evaluateCondition`, with the catch
folded in, selects the first operator of the list that occurs in the
condition and compares the resolved left part against the parsed right part
of the split, falling back to truthiness when no operator occurs; every
resolution failure becomes `false`. -/
theorem evaluateConditionTry_characterization (condition : String) (context : JsValue) :
    ∀ ops : List String,
      (match ContextProcessor.evaluateConditionTry condition context ops with
       | .ok b => b
       | .error _ => false)
      = (match ops.find? (fun op => ContextProcessor.listContainsSub op.toList condition.toList) with
         | some op =>
           (match ContextProcessor.getValue
               (((jsSplit op condition).map jsTrim).headD "") context with
            | .ok leftValue =>
              ContextProcessor.compareOp op leftValue
                (ContextProcessor.parseValue
                  ((((jsSplit op condition).map jsTrim).drop 1).headD "") context)
            | .error _ => false)
         | none =>
           (match ContextProcessor.getValue condition context with
            | .ok v => jsTruthy v
            | .error _ => false)) := by
  intro ops
  induction ops with
  | nil =>
    cases hv : ContextProcessor.getValue condition context <;>
      simp [ContextProcessor.evaluateConditionTry, List.find?, hv, Bind.bind, Except.bind, Pure.pure, Except.pure]
  | cons op rest ih =>
    by_cases h : ContextProcessor.listContainsSub op.toList condition.toList
    · have hd : ContextProcessor.listContainsSub op.data condition.data = true := h
      simp only [ContextProcessor.evaluateConditionTry, List.find?, h, hd,
        eq_self_iff_true, if_true]
      cases hv : ContextProcessor.getValue
          (((jsSplit op condition).map jsTrim).headD "") context <;>
        simp [hv]
    · have hd : ContextProcessor.listContainsSub op.data condition.data = false := by
        simpa using h
      simp only [ContextProcessor.evaluateConditionTry, List.find?, h, hd,
        Bool.false_eq_true, if_false]
      simpa using ih

/-- C4 (amended): conditional-expression evaluation scans the comparator
list ["==","!=",">=","<=",">","<"] in that fixed order and acts on the
FIRST operator textually present; the expression is split by
`String.prototype.split` at EVERY occurrence of that operator and the
trimmed first two segments become the left and right operands — so when
the operator occurs more than once, the right operand is the text between
the first and second occurrences, not everything after the first.  The
left part is always resolved as a context path, the right part is parsed
as quoted string, then number, then boolean, then context path, then
literal; with no comparator present the whole expression's resolution is
tested for truthiness; and every resolution failure yields false — the
evaluator never consults the strict-mode option and never raises. -/
theorem c4_condition_evaluation_amended (condition : String) (context : JsValue) :
    ContextProcessor.evaluateCondition condition context
      = (match ContextProcessor.firstIncludedOp condition with
         | some op =>
           (match ContextProcessor.getValue
               (((jsSplit op condition).map jsTrim).headD "") context with
            | .ok leftValue =>
              ContextProcessor.compareOp op leftValue
                (ContextProcessor.parseValue
                  ((((jsSplit op condition).map jsTrim).drop 1).headD "") context)
            | .error _ => false)
         | none =>
           (match ContextProcessor.getValue condition context with
            | .ok v => jsTruthy v
            | .error _ => false)) := by
  have hres := evaluateConditionTry_characterization condition context
    ContextProcessor.operators
  simpa [ContextProcessor.evaluateCondition, ContextProcessor.firstIncludedOp]
    using hres

/-- Counterexample for C8: a failing module processed through the actual
pipeline in lenient mode leaves the templater's error collector
(`this.errors`) EMPTY — the failure is only logged to the console — so the
claim's "recorded in the error collector as Recoverable" is false. -/
theorem c8_collector_counterexample :
    DocxTemplaterPro.processXmlContent ContextProcessor.lenientOptions [failingModule]
        (jsObjOf []) "docx" "hello" = (some "hello", [])
    ∧ (DocxTemplaterPro.processXmlContent ContextProcessor.lenientOptions [failingModule]
        (jsObjOf []) "docx" "hello").2.length = 0
    ∧ (0 : Nat) ≠ 1 :=
  ⟨rfl, rfl, by decide⟩

/-- C8 (amended): an applicable module whose `process` throws is caught at
that module's boundary by `ModuleManager.process`: with the strict flag set
on the processing context the wrapped error is re-raised and the unit's
processing aborts at that module; without it a console warning is emitted
(nothing reaches the templater's error collector) and processing continues
over the remaining modules with the pre-phase content as fallback. -/
theorem c8_module_boundary_amended (ctx : ModuleManager.ProcessContext)
    (m : ModuleManager.PModule) (rest : List ModuleManager.PModule) (content e : String)
    (hsp : ModuleManager.shouldProcessModule m ctx = true)
    (hrun : m.run content = .error e) :
    (ctx.errorOnMissingData = true →
      ModuleManager.process (m :: rest) ctx content =
        .error ("Module " ++ m.name ++ " failed: " ++ e))
    ∧ (ctx.errorOnMissingData = false →
      ModuleManager.process (m :: rest) ctx content =
        ModuleManager.processAux ctx rest content
          ["Module " ++ m.name ++ " failed: " ++ e]) := by
  constructor <;> intro hmode <;>
    simp [ModuleManager.process, ModuleManager.processAux, hsp, hrun, hmode]

/-- Witness for C8 at concrete inputs. -/
theorem c8_module_boundary_amended_witness :
    ModuleManager.shouldProcessModule failingModule
        { errorOnMissingData := true, documentType := "docx", content := none } = true
    ∧ failingModule.run "x" = .error "boom"
    ∧ (({ errorOnMissingData := true, documentType := "docx", content := none } :
          ModuleManager.ProcessContext).errorOnMissingData = true →
        ModuleManager.process [failingModule]
          { errorOnMissingData := true, documentType := "docx", content := none } "x" =
          .error ("Module " ++ failingModule.name ++ " failed: " ++ "boom"))
    ∧ (({ errorOnMissingData := true, documentType := "docx", content := none } :
          ModuleManager.ProcessContext).errorOnMissingData = false →
        ModuleManager.process [failingModule]
          { errorOnMissingData := true, documentType := "docx", content := none } "x" =
        ModuleManager.processAux
          { errorOnMissingData := true, documentType := "docx", content := none } [] "x"
          ["Module " ++ failingModule.name ++ " failed: " ++ "boom"]) := by
  refine ⟨rfl, rfl, ?_⟩
  exact c8_module_boundary_amended
    { errorOnMissingData := true, documentType := "docx", content := none }
    failingModule [] "x" "boom" rfl rfl

/-- Counterexample for C9: the counter is precisely a module-instance field
that persists across `process` invocations.  On the branch where the
increment statement is reachable (document type outside docx/pptx, as when
the module is invoked via `processWithModule` or directly), a first render
allocating one image leaves the instance counter at 2, and the next render
on the same instance starts allocating at rId1002, not at the same initial
id rId1001. -/
theorem c9_counter_persists_counterexample :
    ImageModule.renderAlloc "xlsx" 1 ImageModule.initialCounter = (["rId1001"], 2)
    ∧ ImageModule.renderAlloc "xlsx" 1 2 = (["rId1002"], 3)
    ∧ (["rId1001"] : List String) ≠ ["rId1002"] :=
  ⟨rfl, rfl, by decide⟩

/-- Helper for C9: for docx documents the increment after the `return`
statements is dead code, so every image of every render gets the same
relationship id and the instance counter never moves. -/
theorem imageRenderAlloc_docx (n c : Nat) :
    ImageModule.renderAlloc "docx" n c =
      (List.replicate n ("rId" ++ toString (1000 + c)), c) := by
  induction n with
  | zero => rfl
  | succ n ih =>
    simp [ImageModule.renderAlloc, ImageModule.createImageXml, ih, List.replicate_succ]

/-- Helper for C9: the docx-side dead increment for the QR module. -/
theorem qrRenderAlloc_docx (n c : Nat) :
    QrCodeModule.renderAlloc "docx" n c =
      (List.replicate n ("rId" ++ toString (2000 + c)), c) := by
  induction n with
  | zero => rfl
  | succ n ih =>
    simp [QrCodeModule.renderAlloc, QrCodeModule.createQrCodeXml, ih, List.replicate_succ]

/-- Helper for C9: outside docx/pptx the image counter increments once per
allocation and is left at `c + n`, so ids are consecutive and the next
invocation continues the sequence. -/
theorem imageRenderAlloc_other (documentType : String) (h1 : documentType ≠ "docx")
    (h2 : documentType ≠ "pptx") (n c : Nat) :
    ImageModule.renderAlloc documentType n c =
      ((List.range n).map (fun i => "rId" ++ toString (1000 + c + i)), c + n) := by
  induction n generalizing c with
  | zero => rfl
  | succ n ih =>
    have hb1 : (documentType == "docx") = false := by
      simpa using h1
    have hb2 : (documentType == "pptx") = false := by
      simpa using h2
    simp only [ImageModule.renderAlloc, ImageModule.createImageXml, hb1, hb2,
      if_false, Bool.false_eq_true, ih (c + 1)]
    rw [Prod.mk.injEq]
    constructor
    · rw [List.range_succ_eq_map, List.map_cons, List.map_map]
      refine congrArg₂ List.cons (by rw [Nat.add_zero]) ?_
      apply List.map_congr_left
      intro i _
      exact congrArg (fun m => "rId" ++ toString m) (by omega)
    · omega

/-- Helper for C9: the QR counterpart of `imageRenderAlloc_other`. -/
theorem qrRenderAlloc_other (documentType : String) (h1 : documentType ≠ "docx")
    (h2 : documentType ≠ "pptx") (n c : Nat) :
    QrCodeModule.renderAlloc documentType n c =
      ((List.range n).map (fun i => "rId" ++ toString (2000 + c + i)), c + n) := by
  induction n generalizing c with
  | zero => rfl
  | succ n ih =>
    have hb1 : (documentType == "docx") = false := by
      simpa using h1
    have hb2 : (documentType == "pptx") = false := by
      simpa using h2
    simp only [QrCodeModule.renderAlloc, QrCodeModule.createQrCodeXml, hb1, hb2,
      if_false, Bool.false_eq_true, ih (c + 1)]
    rw [Prod.mk.injEq]
    constructor
    · rw [List.range_succ_eq_map, List.map_cons, List.map_map]
      refine congrArg₂ List.cons (by rw [Nat.add_zero]) ?_
      apply List.map_congr_left
      intro i _
      exact congrArg (fun m => "rId" ++ toString m) (by omega)
    · omega

/-- C9 (amended): the image and QR relationship-id counters are
module-instance fields initialised to 1 at construction and never reset per
render.  For docx (and pptx) output the `counter++` statement sits after
the `return` statements and never executes, so every asset of every render
is allocated the SAME id (`rId1001`, resp. `rId2001` offset by the initial
counter); on the remaining branch the counter increments per asset and
persists, so a later invocation on the same instance continues the
sequence instead of restarting from the initial id. -/
theorem c9_asset_id_amended (documentType : String) (n c : Nat)
    (h1 : documentType ≠ "docx") (h2 : documentType ≠ "pptx") :
    ImageModule.renderAlloc "docx" n c =
      (List.replicate n ("rId" ++ toString (1000 + c)), c)
    ∧ QrCodeModule.renderAlloc "docx" n c =
      (List.replicate n ("rId" ++ toString (2000 + c)), c)
    ∧ ImageModule.renderAlloc documentType n c =
      ((List.range n).map (fun i => "rId" ++ toString (1000 + c + i)), c + n)
    ∧ QrCodeModule.renderAlloc documentType n c =
      ((List.range n).map (fun i => "rId" ++ toString (2000 + c + i)), c + n) :=
  ⟨imageRenderAlloc_docx n c, qrRenderAlloc_docx n c,
    imageRenderAlloc_other documentType h1 h2 n c,
    qrRenderAlloc_other documentType h1 h2 n c⟩

/-- Witness for C9 at concrete inputs. -/
theorem c9_asset_id_amended_witness :
    ("xlsx" ≠ "docx") ∧ ("xlsx" ≠ "pptx")
    ∧ (ImageModule.renderAlloc "docx" 2 1 =
        (List.replicate 2 ("rId" ++ toString (1000 + 1)), 1)
      ∧ QrCodeModule.renderAlloc "docx" 2 1 =
        (List.replicate 2 ("rId" ++ toString (2000 + 1)), 1)
      ∧ ImageModule.renderAlloc "xlsx" 2 1 =
        ((List.range 2).map (fun i => "rId" ++ toString (1000 + 1 + i)), 1 + 2)
      ∧ QrCodeModule.renderAlloc "xlsx" 2 1 =
        ((List.range 2).map (fun i => "rId" ++ toString (2000 + 1 + i)), 1 + 2)) :=
  ⟨by decide, by decide, c9_asset_id_amended "xlsx" 2 1 (by decide) (by decide)⟩

end Docxpro
